import Mathlib

/-!
Verification of the hybrid_memory engine.

Shallow embedding of the Python sources:
  src/core/managers/long_term_memory.py   (LongTermMemoryEngine, SimpleVectorStore)
  src/core/managers/short_term_memory.py  (ShortTermMemoryManager)
  src/core/processors/memory_processor.py (MemoryProcessor)
  src/core/retrieval/retriever.py         (MemoryRetriever)

Conventions of the embedding:
* `time.time()` and SQLite's `strftime('%s','now')` defaults are modelled by an
  explicit `now : ℚ` argument threaded into each operation that reads the clock.
* SQLite rows are kept as a Lean list in insertion order.  Since `id` is an
  AUTOINCREMENT primary key, insertion order coincides with ascending-id order,
  which is also the order SQLite produces for `WHERE id IN (...)` scans.
* `ORDER BY created_at DESC` / `ORDER BY timestamp DESC` are modelled by a
  stable insertion sort (ties keep table order).
* Python floats (`importance`, scores, timestamps) are modelled as ℚ; the
  literal `0.95` is `19/20`.
* A Python `AttributeError` (touching `self.db` when the database was never
  opened) is modelled with `Except PyErr`; the connection itself is
  `Option MemoryDB`.
* `metadata` dictionaries are kept as association lists; the
  `json.dumps`/`json.loads` round-trip is not modelled because no claim
  observes the serialized text.
-/

/- Batteries marks the arithmetic on `Rat` `@[irreducible]`, which blocks
`decide`-style evaluation of the model on concrete states; restore the
default reducibility for elaboration (the kernel is unaffected). -/
attribute [local semireducible] Rat.add Rat.mul Rat.sub Rat.inv

namespace HybridMemory

/-- Python exceptions that can escape the modelled operations. -/
inductive PyErr where
  | attributeError : PyErr
deriving DecidableEq, Repr

instance {α β : Type} [DecidableEq α] [DecidableEq β] : DecidableEq (Except α β) :=
  fun a b =>
    match a, b with
    | .error x, .error y =>
      if h : x = y then .isTrue (by rw [h]) else .isFalse (by simp [h])
    | .error _, .ok _ => .isFalse (by simp)
    | .ok _, .error _ => .isFalse (by simp)
    | .ok x, .ok y =>
      if h : x = y then .isTrue (by rw [h]) else .isFalse (by simp [h])

/-- One row of the `memories` table (long_term_memory.py, CREATE TABLE). -/
structure MemRecord where
  id : Nat
  sessionId : String
  content : String
  importance : ℚ
  createdAt : ℚ
  lastAccessed : ℚ
  accessCount : Nat
  decayScore : ℚ
  metadata : List (String × String)
deriving DecidableEq, Repr

/-- The open SQLite database: rows in insertion (= ascending id) order plus
the AUTOINCREMENT counter. -/
structure MemoryDB where
  rows : List MemRecord
  nextId : Nat
deriving DecidableEq, Repr

/-- State of `LongTermMemoryEngine`: the `_initialized` flag, the connection
(`none` when `_init_database` never ran), and `SimpleVectorStore.store`
(a dict `id → content` in insertion order). -/
structure LTMState where
  initialized : Bool
  db : Option MemoryDB
  vstore : List (Nat × String)
deriving DecidableEq, Repr

/-- A dict returned by `LongTermMemoryEngine.search`
(keys id, session_id, content, importance, created_at, score). -/
structure SearchHit where
  id : Nat
  sessionId : String
  content : String
  importance : ℚ
  createdAt : ℚ
  score : ℚ
deriving DecidableEq, Repr

/-- Boolean substring test on character lists (Python `needle in hay`;
in particular the empty needle is contained in everything). -/
def infixOfB (needle : List Char) : List Char → Bool
  | [] => needle.isEmpty
  | c :: rest => needle.isPrefixOf (c :: rest) || infixOfB needle rest

/-- Python `s.lower()` on the character list (ASCII case folding, as in
`Char.toLower`; the stored contents are ASCII). -/
def lowerData (s : String) : List Char :=
  s.data.map Char.toLower

/-- Python `query.lower() in content.lower()` (case-insensitive substring
test used by `SimpleVectorStore.search`). -/
def pyContains (query content : String) : Bool :=
  infixOfB (lowerData query) (lowerData content)

/-- `SimpleVectorStore.search`: walk the dict in insertion order, collect ids
whose content contains the query, and break once `len(results) >= k` *after*
appending (so `k = 0` still yields one result when anything matches). -/
def svsSearch : List (Nat × String) → String → Nat → List Nat
  | [], _, _ => []
  | (mid, content) :: rest, query, k =>
    if pyContains query content then
      if k ≤ 1 then [mid] else mid :: svsSearch rest query (k - 1)
    else svsSearch rest query k

/-- Stable insert for `ORDER BY created_at DESC` (ties keep earlier row first). -/
def insertByCreatedDesc (r : MemRecord) : List MemRecord → List MemRecord
  | [] => [r]
  | x :: xs =>
    if x.createdAt ≤ r.createdAt then r :: x :: xs else x :: insertByCreatedDesc r xs

/-- `ORDER BY created_at DESC` as a stable sort of the table. -/
def sortByCreatedDesc : List MemRecord → List MemRecord
  | [] => []
  | x :: xs => insertByCreatedDesc x (sortByCreatedDesc xs)

/-- The access bookkeeping `UPDATE memories SET last_accessed = ?,
access_count = access_count + 1 WHERE id = ?` applied to one row. -/
def bumpRec (now : ℚ) (r : MemRecord) : MemRecord :=
  { r with lastAccessed := now, accessCount := r.accessCount + 1 }

/-- Result dict built in the no-candidate fallback branch of `search`
(`score = access_count / 10.0`). -/
def fallbackHit (r : MemRecord) : SearchHit :=
  ⟨r.id, r.sessionId, r.content, r.importance, r.createdAt, (r.accessCount : ℚ) / 10⟩

/-- Result dict built in the candidate branch of `search`
(`score = 1.0 - i * 0.1` for the i-th of `rows[:k]`). -/
def rankedHit (i : Nat) (r : MemRecord) : SearchHit :=
  ⟨r.id, r.sessionId, r.content, r.importance, r.createdAt, 1 - (i : ℚ) / 10⟩

/-- `LongTermMemoryEngine.add_memory`.  Returns `-1` without touching the
database when not initialized; otherwise inserts a row with the column
defaults (`access_count = 0`, `decay_score = 1.0`, timestamps `now`) and
mirrors the content into the vector store. -/
def addMemory (st : LTMState) (content sessionId : String) (importance : ℚ)
    (metadata : List (String × String)) (now : ℚ) : Except PyErr (Int × LTMState) :=
  if st.initialized then
    match st.db with
    | none => .error .attributeError
    | some db =>
      let row : MemRecord :=
        ⟨db.nextId, sessionId, content, importance, now, now, 0, 1, metadata⟩
      .ok ((db.nextId : Int),
        { st with
            db := some ⟨db.rows ++ [row], db.nextId + 1⟩
            vstore := st.vstore ++ [(db.nextId, content)] })
  else .ok (-1, st)

/-- `LongTermMemoryEngine.search`.  Returns `[]` without touching the database
when not initialized.  Otherwise asks the vector store for up to `k * 2`
candidate ids; with no candidates it falls back to the `k` most recently
created rows scored `access_count / 10.0` (no bookkeeping); with candidates it
reads the candidate rows, bumps `last_accessed`/`access_count` for *every*
candidate id, and returns the first `k` rows scored `1.0 - i * 0.1`. -/
def searchMem (st : LTMState) (query : String) (k : Nat) (now : ℚ) :
    Except PyErr (List SearchHit × LTMState) :=
  if st.initialized then
    match st.db with
    | none => .error .attributeError
    | some db =>
      let candidates := svsSearch st.vstore query (k * 2)
      if candidates = [] then
        .ok (((sortByCreatedDesc db.rows).take k).map fallbackHit, st)
      else
        let rows := db.rows.filter (fun r => candidates.contains r.id)
        let updated := db.rows.map
          (fun r => if candidates.contains r.id then bumpRec now r else r)
        .ok ((rows.take k).enum.map (fun p => rankedHit p.1 p.2),
          { st with db := some ⟨updated, db.nextId⟩ })
  else .ok ([], st)

/-- `LongTermMemoryEngine.delete_memory`.  Returns `False` when not
initialized; otherwise deletes the row and the vector-store entry and
reports whether a row was deleted. -/
def deleteMemory (st : LTMState) (memoryId : Nat) : Except PyErr (Bool × LTMState) :=
  if st.initialized then
    match st.db with
    | none => .error .attributeError
    | some db =>
      .ok (db.rows.any (fun r => r.id == memoryId),
        { st with
            db := some ⟨db.rows.filter (fun r => r.id ≠ memoryId), db.nextId⟩
            vstore := st.vstore.filter (fun p => p.1 ≠ memoryId) })
  else .ok (false, st)

/-- `LongTermMemoryEngine.get_memory`: no `_initialized` guard — it touches
`self.db` unconditionally (AttributeError when the store was never opened). -/
def getMemory (st : LTMState) (memoryId : Nat) : Except PyErr (Option MemRecord) :=
  match st.db with
  | none => .error .attributeError
  | some db => .ok (db.rows.find? (fun r => r.id == memoryId))

/-- `LongTermMemoryEngine.get_all_memories` (`ORDER BY created_at DESC
LIMIT ? OFFSET ?`): no `_initialized` guard. -/
def getAllMemories (st : LTMState) (limit offset : Nat) :
    Except PyErr (List MemRecord) :=
  match st.db with
  | none => .error .attributeError
  | some db => .ok (((sortByCreatedDesc db.rows).drop offset).take limit)

/-- `LongTermMemoryEngine.update_memory`: no `_initialized` guard.  Rewrites
the row content; on a hit also rewrites (or inserts) the vector-store entry. -/
def updateMemory (st : LTMState) (memoryId : Nat) (content : String) :
    Except PyErr (Bool × LTMState) :=
  match st.db with
  | none => .error .attributeError
  | some db =>
    let hit := db.rows.any (fun r => r.id == memoryId)
    let rows := db.rows.map
      (fun r => if r.id == memoryId then { r with content := content } else r)
    if hit then
      let vstore :=
        if st.vstore.any (fun p => p.1 == memoryId) then
          st.vstore.map (fun p => if p.1 == memoryId then (p.1, content) else p)
        else st.vstore ++ [(memoryId, content)]
      .ok (true, { st with db := some ⟨rows, db.nextId⟩, vstore := vstore })
    else .ok (false, { st with db := some ⟨rows, db.nextId⟩ })

/-- `LongTermMemoryEngine.get_memory_count`: no `_initialized` guard. -/
def getMemoryCount (st : LTMState) : Except PyErr Nat :=
  match st.db with
  | none => .error .attributeError
  | some db => .ok db.rows.length

/-- `LongTermMemoryEngine.rebuild_index` delegates to
`SimpleVectorStore.rebuild`, whose body is `pass`: the state is untouched. -/
def rebuildIndex (st : LTMState) : LTMState :=
  st

/-- One row of `UPDATE memories SET decay_score = decay_score * 0.95 WHERE
last_accessed < threshold` with `threshold = now - decay_days * 24 * 3600`. -/
def decayStep (now decayDays : ℚ) (r : MemRecord) : MemRecord :=
  if r.lastAccessed < now - decayDays * 24 * 3600 then
    { r with decayScore := r.decayScore * (19 / 20) }
  else r

/-- The decay UPDATE applied to the whole table. -/
def applyDecayRows (rows : List MemRecord) (now decayDays : ℚ) : List MemRecord :=
  rows.map (decayStep now decayDays)

/-- `LongTermMemoryEngine.apply_decay`: no-op when not initialized; otherwise
multiplies `decay_score` by `0.95` for rows with `last_accessed` older than
`now - decay_days * 24 * 3600` (decay_days comes from the config manager and
is passed here explicitly). -/
def applyDecay (st : LTMState) (now decayDays : ℚ) : Except PyErr LTMState :=
  if st.initialized then
    match st.db with
    | none => .error .attributeError
    | some db => .ok { st with db := some ⟨applyDecayRows db.rows now decayDays, db.nextId⟩ }
  else .ok st

/-! ### Short-term memory (short_term_memory.py) -/

/-- One row of the `short_term_memories` table. -/
structure LogRow where
  id : Nat
  sessionId : String
  role : String
  content : String
  timestamp : ℚ
deriving DecidableEq, Repr

/-- One entry of the in-memory `_session_cache` (Python dict with keys
id, role, content, timestamp — no session id). -/
structure CacheMsg where
  id : Nat
  role : String
  content : String
  timestamp : ℚ
deriving DecidableEq, Repr

/-- Association-list lookup for a Python dict keyed by session id. -/
def alookup {α : Type} (m : List (String × α)) (k : String) : Option α :=
  (m.find? (fun p => p.1 == k)).map (fun p => p.2)

/-- Python dict assignment `m[k] = v`: overwrite in place, or append a new
key at the end (dicts preserve insertion order). -/
def assocSet {α : Type} (m : List (String × α)) (k : String) (v : α) :
    List (String × α) :=
  if m.any (fun p => p.1 == k) then
    m.map (fun p => if p.1 == k then (k, v) else p)
  else m ++ [(k, v)]

/-- Python slice `s[:n]` on a string (counts code points, like Lean
characters). -/
def pyTruncate (s : String) (n : Nat) : String :=
  ⟨s.data.take n⟩

/-- Python slice `l[-limit:]`.  Note the `-0` quirk: `l[-0:]` is the whole
list. -/
def pyLastSlice {α : Type} (l : List α) (limit : Nat) : List α :=
  if limit = 0 then l else l.drop (l.length - limit)

/-- Stable insert for `ORDER BY timestamp DESC` (ties keep earlier row first). -/
def insertByTsDesc (r : LogRow) : List LogRow → List LogRow
  | [] => [r]
  | x :: xs =>
    if x.timestamp ≤ r.timestamp then r :: x :: xs else x :: insertByTsDesc r xs

/-- `ORDER BY timestamp DESC` as a stable sort of the table. -/
def sortByTsDesc : List LogRow → List LogRow
  | [] => []
  | x :: xs => insertByTsDesc x (sortByTsDesc xs)

/-- State of `ShortTermMemoryManager`: the durable table (insertion order),
the AUTOINCREMENT counter, and the `_session_cache` dict. -/
structure STMState where
  log : List LogRow
  nextId : Nat
  cache : List (String × List CacheMsg)
deriving DecidableEq, Repr

/-- The `max_messages = 50` bound of `add_message`: keep the cache list as
is, or only its last 50 entries (`l[-50:]`) once the bound is exceeded. -/
def clip50 (l : List CacheMsg) : List CacheMsg :=
  if 50 < l.length then l.drop (l.length - 50) else l

/-- `ShortTermMemoryManager.add_message`: INSERT the row into the durable
table, append to the session's cache list (created on demand), and keep only
the last `max_messages = 50` cache entries when the bound is exceeded. -/
def addMessage (st : STMState) (sessionId role content : String) (now : ℚ) :
    Nat × STMState :=
  let msgId := st.nextId
  let log := st.log ++ [⟨msgId, sessionId, role, content, now⟩]
  let old := (alookup st.cache sessionId).getD []
  let clipped := clip50 (old ++ [⟨msgId, role, content, now⟩])
  (msgId, ⟨log, st.nextId + 1, assocSet st.cache sessionId clipped⟩)

/-- `ShortTermMemoryManager.get_session_messages`: serve `cache[sid][-limit:]`
on a cache hit; on a miss, load the `limit` most recent durable rows
(reversed back to chronological order) and install them in the cache. -/
def getSessionMessages (st : STMState) (sessionId : String) (limit : Nat) :
    List CacheMsg × STMState :=
  match alookup st.cache sessionId with
  | some msgs => (pyLastSlice msgs limit, st)
  | none =>
    let rows := (sortByTsDesc (st.log.filter (fun r => r.sessionId == sessionId))).take limit
    let messages := rows.reverse.map (fun r => (⟨r.id, r.role, r.content, r.timestamp⟩ : CacheMsg))
    (messages, { st with cache := st.cache ++ [(sessionId, messages)] })

/-- `ShortTermMemoryManager.get_session_context`: `get_session_messages` with
the default limit 50, projected to role/content pairs. -/
def getSessionContext (st : STMState) (sessionId : String) :
    List (String × String) × STMState :=
  let p := getSessionMessages st sessionId 50
  (p.1.map (fun m => (m.role, m.content)), p.2)

/-! ### Memory processor (memory_processor.py) -/

/-- State of `MemoryProcessor`: the per-session `_message_counter` dict plus
the two owned stores. -/
structure ProcState where
  counter : List (String × Nat)
  stm : STMState
  ltm : LTMState
deriving DecidableEq, Repr

/-- The summary prompt built by `summarize_session`: the last 10 context
messages, each content truncated to 200 characters, joined with newlines
inside a fixed Chinese template. -/
def buildSummaryPrompt (messages : List (String × String)) : String :=
  let body := String.intercalate "\n"
    ((pyLastSlice messages 10).map (fun m => m.1 ++ ": " ++ pyTruncate m.2 200))
  "请总结以下对话的要点:\n\n" ++ body ++ "\n\n请用简洁的语言总结关键信息:"

/-- `MemoryProcessor._call_llm_summary`: when the provider is available it
returns the fixed placeholder text mentioning the prompt length, otherwise
(missing provider or exception) the empty string. -/
def callLlmSummary (providerAvailable : Bool) (prompt : String) : String :=
  if providerAvailable then
    "[这是对话总结 - " ++ toString prompt.length ++ " 字符]"
  else ""

/-- `MemoryProcessor.summarize_session`: read the session context, build the
prompt, call the LLM, and on a non-empty summary commit it to long-term
memory with importance 0.7 and metadata `type = summary`.  Everything is in a
`try` block: an exception from `add_memory` is caught and yields `""`. -/
def summarizeSession (ps : ProcState) (sessionId : String)
    (providerAvailable : Bool) (now : ℚ) : String × ProcState :=
  let p := getSessionContext ps.stm sessionId
  let ps := { ps with stm := p.2 }
  if p.1.isEmpty then ("", ps)
  else
    let summary := callLlmSummary providerAvailable (buildSummaryPrompt p.1)
    if summary = "" then ("", ps)
    else
      match addMemory ps.ltm summary sessionId (7 / 10) [("type", "summary")] now with
      | .ok q => (summary, { ps with ltm := q.2 })
      | .error _ => ("", ps)

/-- `MemoryProcessor.handle_message`: ignore events without a session id or
message; otherwise append the user message to short-term memory, increment
the session's counter, and when it reaches `summary_threshold` run
`summarize_session` and reset the counter to 0 (regardless of the summary's
success).  The returned Bool records whether summarization was triggered. -/
def handleMessage (ps : ProcState) (sessionId message : String)
    (threshold : Nat) (providerAvailable : Bool) (now : ℚ) : Bool × ProcState :=
  if sessionId = "" then (false, ps)
  else if message = "" then (false, ps)
  else
    let p := addMessage ps.stm sessionId "user" message now
    let c := (alookup ps.counter sessionId).getD 0 + 1
    let ps := { ps with stm := p.2, counter := assocSet ps.counter sessionId c }
    if threshold ≤ c then
      let q := summarizeSession ps sessionId providerAvailable now
      (true, { q.2 with counter := assocSet q.2.counter sessionId 0 })
    else (false, ps)

/-- A run of `handle_message` calls for one session, collecting the
triggered-summarization flags in order. -/
def runProc (ps : ProcState) (sessionId : String) (msgs : List String)
    (threshold : Nat) (providerAvailable : Bool) (now : ℚ) :
    List Bool × ProcState :=
  match msgs with
  | [] => ([], ps)
  | m :: rest =>
    let p := handleMessage ps sessionId m threshold providerAvailable now
    let q := runProc p.2 sessionId rest threshold providerAvailable now
    (p.1 :: q.1, q.2)

/-! ### Retriever (retriever.py) -/

/-- The part of a `ProviderRequest` the retriever observes: the system prompt
and the message contents. -/
structure ProviderReq where
  systemPrompt : String
  messages : List String
deriving DecidableEq, Repr

/-- `MemoryRetriever._extract_query_from_request`: the last message content
truncated to 500 characters, or `""` when there are no messages. -/
def extractQuery (req : ProviderReq) : String :=
  match req.messages.getLast? with
  | some c => pyTruncate c 500
  | none => ""

/-- One-decimal rendering of a non-negative rational, a decimal approximation
of Python's `f"{x:.1f}"` (which rounds the binary float to one digit). -/
def fmtOneDec (q : ℚ) : String :=
  let n := (q * 10 + 1 / 2).floor.toNat
  toString (n / 10) ++ "." ++ toString (n % 10)

/-- `MemoryRetriever._format_short_term_memory`: the last 10 messages, each
as a role label plus the content truncated to 200 characters. -/
def formatShortTerm (memories : List (String × String)) : String :=
  String.intercalate "\n"
    ((pyLastSlice memories 10).map (fun m =>
      (if m.1 = "user" then "用户" else "助手") ++ ": " ++ pyTruncate m.2 200))

/-- `MemoryRetriever._format_long_term_memory`: each hit as
`[重要性: x.y] content`, content truncated to 200 characters plus `...`. -/
def formatLongTerm (memories : List SearchHit) : String :=
  String.intercalate "\n"
    (memories.map (fun m =>
      let content := if 200 < m.content.length then pyTruncate m.content 200 ++ "..." else m.content
      "[重要性: " ++ fmtOneDec m.importance ++ "] " ++ content))

/-- `MemoryRetriever._build_memory_context`: a short-term section when the
session context is non-empty, then a long-term section when a query is
extractable and the search returns hits; sections joined by a blank line,
`""` when both are absent. -/
def buildMemoryContext (stm : STMState) (ltm : LTMState) (sessionId : String)
    (req : ProviderReq) (topK : Nat) (now : ℚ) :
    Except PyErr (String × STMState × LTMState) :=
  let p := getSessionContext stm sessionId
  let shortParts := if p.1.isEmpty then [] else
    ["=== 短期记忆 (最近对话) ===\n" ++ formatShortTerm p.1]
  let query := extractQuery req
  if query = "" then
    .ok (String.intercalate "\n\n" shortParts, p.2, ltm)
  else
    match searchMem ltm query topK now with
    | .error e => .error e
    | .ok q =>
      let parts := shortParts ++ (if q.1.isEmpty then [] else
        ["=== 长期记忆 (相关记忆) ===\n" ++ formatLongTerm q.1])
      .ok (String.intercalate "\n\n" parts, p.2, q.2)

/-- `MemoryRetriever.inject_memory`: skip events without a session id; build
the memory context and, only when it is non-empty, append it to the system
prompt wrapped in the `[记忆上下文]` markers. -/
def injectMemory (stm : STMState) (ltm : LTMState) (sessionId : String)
    (req : ProviderReq) (topK : Nat) (now : ℚ) :
    Except PyErr (ProviderReq × STMState × LTMState) :=
  if sessionId = "" then .ok (req, stm, ltm)
  else
    match buildMemoryContext stm ltm sessionId req topK now with
    | .error e => .error e
    | .ok r =>
      if r.1 = "" then .ok (req, r.2)
      else
        .ok ({ req with systemPrompt :=
          req.systemPrompt ++ "\n\n[记忆上下文]\n" ++ r.1 ++ "\n[/记忆上下文]\n" }, r.2)

/-! ### Concrete states used by witnesses and counterexamples -/

/-- A freshly and successfully initialized long-term store. -/
def freshLTM : LTMState := ⟨true, some ⟨[], 1⟩, []⟩

/-- One `add_memory` call with session `"s"`, importance `0.5`, no metadata. -/
def addStep (st : LTMState) (content : String) (t : ℚ) : LTMState :=
  match addMemory st content "s" (1 / 2) [] t with
  | .ok p => p.2
  | .error _ => st

/-- The spec's concrete scenario: three records added in order. -/
def scenarioStore : LTMState :=
  addStep (addStep (addStep freshLTM "cats are great" 10) "dogs are loyal" 11)
    "I like pizza" 12

/-- Two records with identical content but different importance and
creation time (older one first, so it is the first candidate). -/
def twoDogState : LTMState :=
  ⟨true,
   some ⟨[⟨1, "s", "dogs are loyal", 0, 10, 10, 0, 1, []⟩,
          ⟨2, "s", "dogs are loyal", 1, 20, 20, 0, 1, []⟩], 3⟩,
   [(1, "dogs are loyal"), (2, "dogs are loyal")]⟩

/-- A single record that does not match the query `"zzz"`. -/
def oneCatState : LTMState :=
  ⟨true, some ⟨[⟨1, "s", "cats are great", 1 / 2, 10, 10, 0, 1, []⟩], 2⟩,
   [(1, "cats are great")]⟩

/-- A store whose `_initialized` flag is false and whose database handle was
never opened (failed initialization). -/
def disabledLTM : LTMState := ⟨false, none, []⟩

/-! ### Spec-side definitions (from the specification text, for comparison) -/

/-- Modelled from the spec: `relevance = overlap * (0.5 + 0.5*importance) *
decayScore` (§4.1). -/
def specRelevance (overlap importance decayScore : ℚ) : ℚ :=
  overlap * (1 / 2 + 1 / 2 * importance) * decayScore

/-- Modelled from the spec: record 1 must be ranked before record 2 when its
relevance is strictly greater, or on a tie when it was created more
recently. -/
def specRanksBefore (o₁ imp₁ d₁ created₁ o₂ imp₂ d₂ created₂ : ℚ) : Prop :=
  specRelevance o₂ imp₂ d₂ < specRelevance o₁ imp₁ d₁
  ∨ (specRelevance o₁ imp₁ d₁ = specRelevance o₂ imp₂ d₂ ∧ created₂ < created₁)

/-- The durable rows created by a run of `add_message` calls for one session
(items are (role, content, timestamp)), ids starting at `startId`. -/
def appendedLog (sessionId : String) (startId : Nat) :
    List (String × String × ℚ) → List LogRow
  | [] => []
  | i :: rest =>
    ⟨startId, sessionId, i.1, i.2.1, i.2.2⟩ :: appendedLog sessionId (startId + 1) rest

/-- The cache entries created by the same run. -/
def appendedCache (startId : Nat) : List (String × String × ℚ) → List CacheMsg
  | [] => []
  | i :: rest => ⟨startId, i.1, i.2.1, i.2.2⟩ :: appendedCache (startId + 1) rest

/-- A run of `add_message` calls for one session. -/
def runAppends (st : STMState) (sessionId : String) :
    List (String × String × ℚ) → STMState
  | [] => st
  | i :: rest => runAppends (addMessage st sessionId i.1 i.2.1 i.2.2).2 sessionId rest

/-- A fresh short-term manager (empty durable table, empty cache). -/
def freshSTM : STMState := ⟨[], 1, []⟩

/-- 51 user appends (contents `"m"`, timestamps 0..50). -/
def items51 : List (String × String × ℚ) :=
  (List.range 51).map (fun n => ("user", "m", (n : ℚ)))

/-- A fresh memory processor over fresh stores. -/
def freshProc : ProcState := ⟨[], freshSTM, freshLTM⟩

/-- An engine freshly re-initialized over an existing database: the
`memories` table still holds a row, but the in-memory vector store starts
empty (the situation `rebuild_index` exists to repair). -/
def staleState : LTMState :=
  ⟨true, some ⟨[⟨1, "s", "dogs are loyal", 1 / 2, 10, 10, 0, 1, []⟩], 2⟩, []⟩

/-! ### General lemmas about the embedded operations -/

/-- `l.contains a` on `Nat` lists is plain membership. -/
theorem natContains_iff {l : List Nat} {a : Nat} : l.contains a = true ↔ a ∈ l := by
  induction l with
  | nil => simp
  | cons x xs ih => simp [List.contains_cons, ih]

/-- `SimpleVectorStore.search` returns the ids of the matching entries in
store order, cut off after `max k 1` of them (the `k = 0` quirk). -/
theorem svsSearch_eq (store : List (Nat × String)) (q : String) (k : Nat) :
    svsSearch store q k
      = ((store.filter (fun p => pyContains q p.2)).map Prod.fst).take (max k 1) := by
  induction store generalizing k with
  | nil => simp [svsSearch]
  | cons x xs ih =>
    rcases x with ⟨mid, content⟩
    by_cases h : pyContains q content
    · by_cases hk : k ≤ 1
      · have h1 : max k 1 = 1 := by omega
        simp [svsSearch, h, hk, h1]
      · have h2 : max k 1 = (k - 1) + 1 := by omega
        have h3 : k - 1 = max (k - 1) 1 := by omega
        simp only [svsSearch, h, if_true, if_neg hk, List.filter_cons, List.map_cons, h2,
          List.take_succ_cons]
        rw [ih, ← h3]
    · simp [svsSearch, h, ih]

/-- Filtering a table by membership of the id in a prefix of the matching
ids gives that prefix of the matching rows (ids must be distinct). -/
theorem filter_contains_take (l : List MemRecord) (p : MemRecord → Bool) (n : Nat)
    (h : (l.map MemRecord.id).Nodup) :
    l.filter (fun r => (((l.filter p).map MemRecord.id).take n).contains r.id)
      = (l.filter p).take n := by
  induction l generalizing n with
  | nil => simp
  | cons x xs ih =>
    rw [List.map_cons, List.nodup_cons] at h
    obtain ⟨hx, hxs⟩ := h
    by_cases hpx : p x
    · cases n with
      | zero => simp
      | succ m =>
        have hcand : ((((x :: xs).filter p).map MemRecord.id).take (m + 1))
            = x.id :: ((xs.filter p).map MemRecord.id).take m := by
          simp [List.filter_cons, hpx]
        rw [hcand]
        have hxid : (x.id :: ((xs.filter p).map MemRecord.id).take m).contains x.id = true := by
          simp [natContains_iff]
        have hcong : ∀ r ∈ xs,
            ((x.id :: ((xs.filter p).map MemRecord.id).take m).contains r.id)
              = (((xs.filter p).map MemRecord.id).take m).contains r.id := by
          intro r hr
          have hne : r.id ≠ x.id := by
            intro hEq
            exact hx (hEq ▸ List.mem_map_of_mem MemRecord.id hr)
          simp [List.contains_cons, hne]
        calc (x :: xs).filter
              (fun r => (x.id :: ((xs.filter p).map MemRecord.id).take m).contains r.id)
            = x :: xs.filter
              (fun r => (((xs.filter p).map MemRecord.id).take m).contains r.id) := by
              rw [List.filter_cons, if_pos hxid, List.filter_congr hcong]
          _ = x :: (xs.filter p).take m := by rw [ih m hxs]
          _ = ((x :: xs).filter p).take (m + 1) := by simp [List.filter_cons, hpx]
    · have hcand : (((x :: xs).filter p).map MemRecord.id).take n
          = ((xs.filter p).map MemRecord.id).take n := by
        simp [List.filter_cons, hpx]
      rw [hcand]
      have hmem : x.id ∉ ((xs.filter p).map MemRecord.id).take n := by
        intro hmem
        exact hx (List.map_subset MemRecord.id (List.filter_subset' xs)
          (List.take_subset _ _ hmem))
      have hxid : (((xs.filter p).map MemRecord.id).take n).contains x.id = false := by
        cases hcase : (((xs.filter p).map MemRecord.id).take n).contains x.id
        · rfl
        · exact absurd (natContains_iff.mp hcase) hmem
      rw [List.filter_cons, if_neg (by simpa using hmem), ih n hxs, List.filter_cons,
        if_neg (by simp [hpx])]

/-- `find?` by id over a table rewritten row-wise by an id-preserving
function returns the rewritten row (ids must be distinct). -/
theorem find?_map_key (rows : List MemRecord) (f : MemRecord → MemRecord)
    (hf : ∀ r, (f r).id = r.id) (hnd : (rows.map MemRecord.id).Nodup)
    {r : MemRecord} (hr : r ∈ rows) :
    (rows.map f).find? (fun x => x.id == r.id) = some (f r) := by
  induction rows with
  | nil => cases hr
  | cons x xs ih =>
    rw [List.map_cons, List.nodup_cons] at hnd
    obtain ⟨hx, hxs⟩ := hnd
    by_cases hid : x.id = r.id
    · have hrx : r = x := by
        rcases List.mem_cons.mp hr with h | h
        · exact h
        · exact absurd (hid ▸ List.mem_map_of_mem MemRecord.id h) hx
      subst hrx
      rw [List.map_cons, List.find?_cons_of_pos _ (by simp [hf])]
    · have hrxs : r ∈ xs := by
        rcases List.mem_cons.mp hr with h | h
        · exact absurd (h ▸ rfl) hid
        · exact h
      rw [List.map_cons, List.find?_cons_of_neg _ (by simp [hf, hid]), ih hxs hrxs]

/-- `find?` by id over an unchanged table returns the row itself. -/
theorem find?_key_self (rows : List MemRecord)
    (hnd : (rows.map MemRecord.id).Nodup) {r : MemRecord} (hr : r ∈ rows) :
    rows.find? (fun x => x.id == r.id) = some r := by
  have h := find?_map_key rows id (fun _ => rfl) hnd hr
  rwa [List.map_id] at h

/-- The candidate ids produced by the vector store when it mirrors the
table: ids of the matching rows in table order, cut off after `max k 1`. -/
theorem candidates_eq (db : MemoryDB) (q : String) (k : Nat) :
    svsSearch (db.rows.map (fun r => (r.id, r.content))) q k
      = ((db.rows.filter (fun r => pyContains q r.content)).map MemRecord.id).take (max k 1) := by
  rw [svsSearch_eq, List.filter_map, List.map_map]
  rfl

/-- The candidate branch of `LongTermMemoryEngine.search` in one step:
under a well-formed state with at least one matching row, the hits are the
first `k` matching rows in table order, scored `1.0 - i * 0.1`, and every
candidate row is bumped. -/
theorem searchMem_match_eq (st : LTMState) (db : MemoryDB) (q : String) (k : Nat) (now : ℚ)
    (h1 : st.initialized = true) (h2 : st.db = some db)
    (h3 : st.vstore = db.rows.map (fun r => (r.id, r.content)))
    (h4 : (db.rows.map MemRecord.id).Nodup)
    (hm : db.rows.filter (fun r => pyContains q r.content) ≠ []) :
    searchMem st q k now = .ok
      ((((db.rows.filter (fun r => pyContains q r.content)).take k).enum.map
          (fun p => rankedHit p.1 p.2)),
       { st with db := some ⟨db.rows.map (fun r =>
           if (svsSearch st.vstore q (k * 2)).contains r.id then bumpRec now r else r),
         db.nextId⟩ }) := by
  have hcand : svsSearch st.vstore q (k * 2)
      = ((db.rows.filter (fun r => pyContains q r.content)).map MemRecord.id).take
          (max (k * 2) 1) := by
    rw [h3]; exact candidates_eq db q (k * 2)
  have hne : ¬ svsSearch st.vstore q (k * 2) = [] := by
    rw [hcand]
    intro hEq
    rcases List.take_eq_nil_iff.mp hEq with h | h
    · omega
    · exact hm (List.map_eq_nil_iff.mp h)
  have hrows : db.rows.filter (fun r => (svsSearch st.vstore q (k * 2)).contains r.id)
      = (db.rows.filter (fun r => pyContains q r.content)).take (max (k * 2) 1) := by
    rw [hcand]; exact filter_contains_take _ _ _ h4
  have hmin : min k (max (k * 2) 1) = k := by omega
  unfold searchMem
  rw [h1]
  simp only [if_true, h2]
  rw [if_neg hne, hrows, List.take_take, hmin]

/-- The fallback branch of `LongTermMemoryEngine.search` in one step: with
no matching row, the hits are the `k` most recently created rows scored
`access_count / 10.0`, and the state is untouched. -/
theorem searchMem_fallback_eq (st : LTMState) (db : MemoryDB) (q : String) (k : Nat) (now : ℚ)
    (h1 : st.initialized = true) (h2 : st.db = some db)
    (h3 : st.vstore = db.rows.map (fun r => (r.id, r.content)))
    (hm : db.rows.filter (fun r => pyContains q r.content) = []) :
    searchMem st q k now = .ok (((sortByCreatedDesc db.rows).take k).map fallbackHit, st) := by
  have hcand : svsSearch st.vstore q (k * 2) = [] := by
    rw [h3, candidates_eq, hm]
    simp
  unfold searchMem
  rw [h1]
  simp only [if_true, h2]
  rw [if_pos hcand]

theorem length_insertByCreatedDesc (r : MemRecord) (l : List MemRecord) :
    (insertByCreatedDesc r l).length = l.length + 1 := by
  induction l with
  | nil => rfl
  | cons x xs ih =>
    by_cases h : x.createdAt ≤ r.createdAt <;> simp [insertByCreatedDesc, h, ih]

theorem length_sortByCreatedDesc (l : List MemRecord) :
    (sortByCreatedDesc l).length = l.length := by
  induction l with
  | nil => rfl
  | cons x xs ih => simp [sortByCreatedDesc, length_insertByCreatedDesc, ih]

/-! ### Claim theorems -/

/-- **C1** (amended): `search` does not use the spec's relevance formula;
under a well-formed initialized store with at least one row whose content
contains the query (case-insensitively), it returns the first `k` matching
rows in table (insertion, ascending-id) order, the i-th scored by the
fabricated `1.0 - i * 0.1`; importance, decayScore and createdAt play no
role in the ranking.  (The concrete "dogs are loyal" scenario holds: see
the witness.) -/
theorem C1_search_ranking (st : LTMState) (db : MemoryDB) (q : String) (k : Nat) (now : ℚ)
    (h1 : st.initialized = true) (h2 : st.db = some db)
    (h3 : st.vstore = db.rows.map (fun r => (r.id, r.content)))
    (h4 : (db.rows.map MemRecord.id).Nodup)
    (hm : db.rows.filter (fun r => pyContains q r.content) ≠ []) :
    ∃ st', searchMem st q k now = .ok
      ((((db.rows.filter (fun r => pyContains q r.content)).take k).enum.map
          (fun p => rankedHit p.1 p.2)), st') :=
  ⟨_, searchMem_match_eq st db q k now h1 h2 h3 h4 hm⟩

/-- **C1** witness: the spec's concrete scenario, via `C1_search_ranking`:
after adding "cats are great", "dogs are loyal", "I like pizza",
`search("dog", 5)` returns exactly the "dogs are loyal" record first
(score 1.0). -/
theorem C1_witness :
    scenarioStore.initialized = true ∧
    (∃ db, scenarioStore.db = some db ∧
      scenarioStore.vstore = db.rows.map (fun r => (r.id, r.content)) ∧
      (db.rows.map MemRecord.id).Nodup ∧
      db.rows.filter (fun r => pyContains "dog" r.content) ≠ []) ∧
    ∃ st', searchMem scenarioStore "dog" 5 20
      = .ok ([⟨2, "s", "dogs are loyal", 1 / 2, 11, 1⟩], st') := by
  refine ⟨rfl, ⟨_, rfl, rfl, by decide, by decide⟩, ?_⟩
  obtain ⟨st', h⟩ :=
    C1_search_ranking scenarioStore ⟨[⟨1, "s", "cats are great", 1 / 2, 10, 10, 0, 1, []⟩,
      ⟨2, "s", "dogs are loyal", 1 / 2, 11, 11, 0, 1, []⟩,
      ⟨3, "s", "I like pizza", 1 / 2, 12, 12, 0, 1, []⟩], 4⟩ "dog" 5 20
      rfl rfl rfl (by decide) (by decide)
  exact ⟨st', h.trans (congrArg (fun hits => Except.ok (hits, st')) (by decide))⟩

/-- **C1** counterexample: two records with identical content (hence equal
lexical overlap with the query) where the code ranks the older,
importance-0 record above the newer, importance-1 record; the spec formula
(with any non-negative overlap, ties broken by newer `createdAt`) demands
the opposite order. -/
theorem C1_counterexample :
    (∃ st', searchMem twoDogState "dog" 5 30 = .ok
      ([⟨1, "s", "dogs are loyal", 0, 10, 1⟩,
        ⟨2, "s", "dogs are loyal", 1, 20, 9 / 10⟩], st')) ∧
    ∀ o : ℚ, 0 ≤ o → ¬ specRanksBefore o 0 1 10 o 1 1 20 := by
  constructor
  · exact ⟨⟨true,
      some ⟨[⟨1, "s", "dogs are loyal", 0, 10, 30, 1, 1, []⟩,
             ⟨2, "s", "dogs are loyal", 1, 20, 30, 1, 1, []⟩], 3⟩,
      [(1, "dogs are loyal"), (2, "dogs are loyal")]⟩, by decide⟩
  · intro o ho h
    rcases h with h | ⟨h, h2⟩
    · simp only [specRelevance] at h
      nlinarith
    · norm_num at h2

/-- **C2** (amended): over one `search` call on a well-formed initialized
store: in the candidate branch every row whose id is among the candidates
(matching rows, up to `k * 2` of them) gets `accessCount + 1` and
`lastAccessedAt = now` — including candidates beyond the first `k` that are
not returned — and rows outside the candidate set are unchanged; every
*returned* row is among the candidates and hence bumped.  In the fallback
branch (no matching row) the state is completely unchanged, so the returned
records are *not* bumped. -/
theorem C2_search_bookkeeping (st : LTMState) (db : MemoryDB) (q : String) (k : Nat) (now : ℚ)
    (h1 : st.initialized = true) (h2 : st.db = some db)
    (h3 : st.vstore = db.rows.map (fun r => (r.id, r.content)))
    (h4 : (db.rows.map MemRecord.id).Nodup) :
    ∃ hits st' db', searchMem st q k now = .ok (hits, st') ∧ st'.db = some db' ∧
      (db.rows.filter (fun r => pyContains q r.content) = [] →
        st' = st ∧ ∀ r ∈ db.rows, db'.rows.find? (fun x => x.id == r.id) = some r) ∧
      (∀ r ∈ db.rows, (svsSearch st.vstore q (k * 2)).contains r.id = true →
        db'.rows.find? (fun x => x.id == r.id) = some (bumpRec now r)) ∧
      (∀ r ∈ db.rows, (svsSearch st.vstore q (k * 2)).contains r.id = false →
        db'.rows.find? (fun x => x.id == r.id) = some r) ∧
      (db.rows.filter (fun r => pyContains q r.content) ≠ [] →
        ∀ r ∈ db.rows, r.id ∈ hits.map SearchHit.id →
          db'.rows.find? (fun x => x.id == r.id) = some (bumpRec now r)) := by
  by_cases hm : db.rows.filter (fun r => pyContains q r.content) = []
  · have hcand : svsSearch st.vstore q (k * 2) = [] := by
      rw [h3, candidates_eq, hm]
      simp
    refine ⟨_, st, db, searchMem_fallback_eq st db q k now h1 h2 h3 hm, h2, ?_, ?_, ?_, ?_⟩
    · exact fun _ => ⟨rfl, fun r hr => find?_key_self db.rows h4 hr⟩
    · intro r _ habs
      rw [hcand] at habs
      cases habs
    · exact fun r hr _ => find?_key_self db.rows h4 hr
    · exact fun habs => absurd hm habs
  · have hstep : ∀ r : MemRecord,
        ((fun r => if (svsSearch st.vstore q (k * 2)).contains r.id
          then bumpRec now r else r) r).id = r.id := by
      intro r
      show (if (svsSearch st.vstore q (k * 2)).contains r.id = true
        then bumpRec now r else r).id = r.id
      by_cases hc : (svsSearch st.vstore q (k * 2)).contains r.id = true
      · rw [if_pos hc]
        rfl
      · rw [if_neg hc]
    refine ⟨_, _, _, searchMem_match_eq st db q k now h1 h2 h3 h4 hm, rfl, ?_, ?_, ?_, ?_⟩
    · exact fun h => absurd h hm
    · intro r hr hc
      have h := find?_map_key db.rows _ hstep h4 hr
      rwa [if_pos hc] at h
    · intro r hr hc
      have h := find?_map_key db.rows _ hstep h4 hr
      rwa [if_neg (fun habs => Bool.false_ne_true (hc ▸ habs))] at h
    · intro _ r hr hid
      -- the returned ids are among the candidate ids
      have hids : (((db.rows.filter (fun r => pyContains q r.content)).take k).enum.map
          (fun p => rankedHit p.1 p.2)).map SearchHit.id
          = ((db.rows.filter (fun r => pyContains q r.content)).map MemRecord.id).take k := by
        rw [List.map_map]
        have hcomp : (SearchHit.id ∘ fun p : Nat × MemRecord => rankedHit p.1 p.2)
            = (MemRecord.id ∘ Prod.snd) := rfl
        rw [hcomp, ← List.map_map, List.enum_map_snd, List.map_take]
      rw [hids] at hid
      have hsub : r.id ∈ ((db.rows.filter (fun r => pyContains q r.content)).map
          MemRecord.id).take (max (k * 2) 1) := by
        have hk : min k (max (k * 2) 1) = k := by omega
        have : ((db.rows.filter (fun r => pyContains q r.content)).map MemRecord.id).take k
            = (((db.rows.filter (fun r => pyContains q r.content)).map MemRecord.id).take
                (max (k * 2) 1)).take k := by
          rw [List.take_take, hk]
        rw [this] at hid
        exact List.take_subset _ _ hid
      have hc : (svsSearch st.vstore q (k * 2)).contains r.id = true := by
        rw [h3, candidates_eq]
        exact natContains_iff.mpr hsub
      have h := find?_map_key db.rows _ hstep h4 hr
      rwa [if_pos hc] at h

/-- **C2** witness, via `C2_search_bookkeeping`: with two matching records
and `k = 1`, the candidate that is *not* returned (id 2) still gets its
`accessCount`/`lastAccessedAt` bumped. -/
theorem C2_witness :
    ∃ hits st' db', searchMem twoDogState "dog" 1 77 = .ok (hits, st') ∧
      st'.db = some db' ∧
      db'.rows.find? (fun x => x.id == 2) =
        some (bumpRec 77 ⟨2, "s", "dogs are loyal", 1, 20, 20, 0, 1, []⟩) := by
  obtain ⟨hits, st', db', hs, hdb, _, hB, _, _⟩ :=
    C2_search_bookkeeping twoDogState
      ⟨[⟨1, "s", "dogs are loyal", 0, 10, 10, 0, 1, []⟩,
        ⟨2, "s", "dogs are loyal", 1, 20, 20, 0, 1, []⟩], 3⟩ "dog" 1 77
      rfl rfl rfl (by decide)
  exact ⟨hits, st', db', hs, hdb,
    hB ⟨2, "s", "dogs are loyal", 1, 20, 20, 0, 1, []⟩ (by decide) (by decide)⟩

/-- **C2** counterexample: in the fallback branch a record is returned by
`search` yet its `accessCount` stays 0 and the state is unchanged —
refuting "every record whose id appears in the returned result list has its
accessCount incremented by exactly 1". -/
theorem C2_counterexample :
    searchMem oneCatState "zzz" 1 99
      = .ok ([⟨1, "s", "cats are great", 1 / 2, 10, 0⟩], oneCatState) ∧
    oneCatState.db.map (fun db => db.rows.map MemRecord.accessCount) = some [0] := by
  exact ⟨rfl, rfl⟩

/-- **C3** (amended): the fallback to the `k` most-recently-created records
happens only when *no* stored content contains the query as a
(case-insensitive) substring — an empty query matches every record, so it
does *not* trigger the fallback but returns the first-inserted `k` records.
The fallback results are scored `access_count / 10.0` (not an overlap of
1.0) and produce no bookkeeping; in either branch, search on a non-empty
store with `k ≥ 1` returns at least one result. -/
theorem C3_fallback_behaviour (st : LTMState) (db : MemoryDB) (q : String) (k : Nat) (now : ℚ)
    (h1 : st.initialized = true) (h2 : st.db = some db)
    (h3 : st.vstore = db.rows.map (fun r => (r.id, r.content)))
    (h4 : (db.rows.map MemRecord.id).Nodup) :
    ∃ hits st', searchMem st q k now = .ok (hits, st') ∧
      (db.rows.filter (fun r => pyContains q r.content) = [] →
        hits = ((sortByCreatedDesc db.rows).take k).map fallbackHit ∧ st' = st) ∧
      (db.rows ≠ [] → 1 ≤ k → hits ≠ []) := by
  by_cases hm : db.rows.filter (fun r => pyContains q r.content) = []
  · refine ⟨_, st, searchMem_fallback_eq st db q k now h1 h2 h3 hm, fun _ => ⟨rfl, rfl⟩, ?_⟩
    intro hrows hk habs
    rw [List.map_eq_nil_iff, List.take_eq_nil_iff] at habs
    rcases habs with h | h
    · omega
    · have := length_sortByCreatedDesc db.rows
      rw [h] at this
      exact hrows (List.eq_nil_of_length_eq_zero this.symm)
  · refine ⟨_, _, searchMem_match_eq st db q k now h1 h2 h3 h4 hm, fun h => absurd h hm, ?_⟩
    intro _ hk habs
    rw [List.map_eq_nil_iff, List.enum_eq_nil, List.take_eq_nil_iff] at habs
    rcases habs with h | h
    · omega
    · exact hm h

/-- **C3** witness, via `C3_fallback_behaviour`: on the three-record
scenario store, `search("zzz", 2)` (no record matches) returns the two most
recently created records — "I like pizza" then "dogs are loyal" — with
fabricated scores `access_count / 10 = 0`, leaving the state unchanged. -/
theorem C3_witness :
    ∃ hits st', searchMem scenarioStore "zzz" 2 40 = .ok (hits, st') ∧
      hits = [⟨3, "s", "I like pizza", 1 / 2, 12, 0⟩,
              ⟨2, "s", "dogs are loyal", 1 / 2, 11, 0⟩] ∧
      st' = scenarioStore ∧ hits ≠ [] := by
  obtain ⟨hits, st', hs, hfb, hne⟩ :=
    C3_fallback_behaviour scenarioStore ⟨[⟨1, "s", "cats are great", 1 / 2, 10, 10, 0, 1, []⟩,
      ⟨2, "s", "dogs are loyal", 1 / 2, 11, 11, 0, 1, []⟩,
      ⟨3, "s", "I like pizza", 1 / 2, 12, 12, 0, 1, []⟩], 4⟩ "zzz" 2 40
      rfl rfl rfl (by decide)
  obtain ⟨hhits, hst⟩ := hfb (by decide)
  refine ⟨hits, st', hs, hhits.trans (by decide), hst, hne (by decide) (by decide)⟩

/-- **C3** counterexample: with the empty query every record matches
(Python's `"" in s` is always true), so `search("", 2)` on the scenario
store returns the two *oldest* records (ids 1 and 2 in insertion order)
rather than the two most-recently-created ones (ids 3 and 2). -/
theorem C3_counterexample :
    ∃ hits st', searchMem scenarioStore "" 2 30 = .ok (hits, st') ∧
      hits.map SearchHit.id = [1, 2] ∧
      scenarioStore.db.map
        (fun db => ((sortByCreatedDesc db.rows).take 2).map MemRecord.id) = some [3, 2] := by
  exact ⟨_, _, rfl, by decide, by decide⟩

/-- **C4** (amended): `add_memory` performs no content validation at all:
on an initialized store it succeeds for *every* content — the empty string
included — and persists a record with the given fields, `decayScore = 1.0`,
`accessCount = 0` and timestamps `now`; it fails (returning `-1` with no
state change) only when the store is uninitialized. -/
theorem C4_add_no_validation :
    (∀ (st : LTMState) (db : MemoryDB) (content sessionId : String) (importance : ℚ)
        (metadata : List (String × String)) (now : ℚ),
      st.initialized = true → st.db = some db →
      ∃ st' db', addMemory st content sessionId importance metadata now
          = .ok ((db.nextId : Int), st') ∧ st'.db = some db' ∧
        db'.rows = db.rows ++
          [⟨db.nextId, sessionId, content, importance, now, now, 0, 1, metadata⟩]) ∧
    (∀ (st : LTMState) (content sessionId : String) (importance : ℚ)
        (metadata : List (String × String)) (now : ℚ),
      st.initialized = false →
      addMemory st content sessionId importance metadata now = .ok (-1, st)) := by
  constructor
  · intro st db c sid imp meta now h1 h2
    refine ⟨{ st with
        db := some ⟨db.rows ++ [⟨db.nextId, sid, c, imp, now, now, 0, 1, meta⟩],
          db.nextId + 1⟩,
        vstore := st.vstore ++ [(db.nextId, c)] },
      ⟨db.rows ++ [⟨db.nextId, sid, c, imp, now, now, 0, 1, meta⟩], db.nextId + 1⟩,
      ?_, rfl, rfl⟩
    unfold addMemory
    rw [h1, h2]
    simp
  · intro st c sid imp meta now h1
    unfold addMemory
    rw [h1]
    simp

/-- **C4** witness, via `C4_add_no_validation`: adding `"hello"` on a fresh
store persists it with id 1; adding on an uninitialized store returns `-1`
and leaves the state unchanged. -/
theorem C4_witness :
    freshLTM.initialized = true ∧ freshLTM.db = some ⟨[], 1⟩ ∧
    (∃ st' db', addMemory freshLTM "hello" "s" (1 / 2) [] 5 = .ok (1, st') ∧
      st'.db = some db' ∧ db'.rows = [⟨1, "s", "hello", 1 / 2, 5, 5, 0, 1, []⟩]) ∧
    addMemory disabledLTM "x" "s" (1 / 2) [] 5 = .ok (-1, disabledLTM) := by
  refine ⟨rfl, rfl, ?_, C4_add_no_validation.2 disabledLTM "x" "s" (1 / 2) [] 5 rfl⟩
  obtain ⟨st', db', h, hdb, hrows⟩ :=
    C4_add_no_validation.1 freshLTM ⟨[], 1⟩ "hello" "s" (1 / 2) [] 5 rfl rfl
  exact ⟨st', db', h, hdb, hrows⟩

/-- **C4** counterexample: adding *empty* content on an initialized store
does not fail with any validation error — it returns a fresh id (1, not the
failure sentinel -1) and persists the empty-content record. -/
theorem C4_counterexample :
    addMemory freshLTM "" "s" (1 / 2) [] 5
      = .ok (1, ⟨true, some ⟨[⟨1, "s", "", 1 / 2, 5, 5, 0, 1, []⟩], 2⟩, [(1, "")]⟩) ∧
    ((1 : Int) ≠ -1) := by
  exact ⟨rfl, by decide⟩

/-- **C5** (amended): in the disabled state `add_memory`, `search`,
`delete_memory` and `apply_decay` are guarded safe no-ops returning
`-1` / `[]` / `False` / nothing; but `get_memory`, `update_memory`,
`get_all_memories` and `get_memory_count` have no guard: when the database
handle was never opened they raise `AttributeError` instead of returning an
empty or failure result. -/
theorem C5_disabled_behaviour :
    (∀ st : LTMState, st.initialized = false →
      (∀ (content sessionId : String) (importance : ℚ)
          (metadata : List (String × String)) (now : ℚ),
        addMemory st content sessionId importance metadata now = .ok (-1, st)) ∧
      (∀ (q : String) (k : Nat) (now : ℚ), searchMem st q k now = .ok ([], st)) ∧
      (∀ i, deleteMemory st i = .ok (false, st)) ∧
      (∀ now d : ℚ, applyDecay st now d = .ok st)) ∧
    (∀ st : LTMState, st.db = none →
      (∀ i, getMemory st i = .error .attributeError) ∧
      (∀ i c, updateMemory st i c = .error .attributeError) ∧
      (∀ l o, getAllMemories st l o = .error .attributeError) ∧
      getMemoryCount st = .error .attributeError) := by
  constructor
  · intro st h
    refine ⟨?_, ?_, ?_, ?_⟩
    · intro c sid imp meta now
      unfold addMemory
      rw [h]
      simp
    · intro q k now
      unfold searchMem
      rw [h]
      simp
    · intro i
      unfold deleteMemory
      rw [h]
      simp
    · intro now d
      unfold applyDecay
      rw [h]
      simp
  · intro st h
    refine ⟨?_, ?_, ?_, ?_⟩
    · intro i
      unfold getMemory
      rw [h]
    · intro i c
      unfold updateMemory
      rw [h]
    · intro l o
      unfold getAllMemories
      rw [h]
    · unfold getMemoryCount
      rw [h]

/-- **C5** witness, via `C5_disabled_behaviour`, at the concrete disabled
store (failed initialization, no database handle). -/
theorem C5_witness :
    addMemory disabledLTM "c" "s" (1 / 2) [] 5 = .ok (-1, disabledLTM) ∧
    searchMem disabledLTM "q" 5 5 = .ok ([], disabledLTM) ∧
    deleteMemory disabledLTM 1 = .ok (false, disabledLTM) ∧
    applyDecay disabledLTM 5 30 = .ok disabledLTM ∧
    getMemory disabledLTM 1 = .error .attributeError := by
  obtain ⟨hadd, hsearch, hdel, hdecay⟩ := C5_disabled_behaviour.1 disabledLTM rfl
  obtain ⟨hget, _, _, _⟩ := C5_disabled_behaviour.2 disabledLTM rfl
  exact ⟨hadd "c" "s" (1 / 2) [] 5, hsearch "q" 5 5, hdel 1, hdecay 5 30, hget 1⟩

/-- **C5** counterexample: on the disabled store (database never opened)
the unguarded operations `get_memory`, `update_memory`, `get_all_memories`
and `get_memory_count` raise `AttributeError` rather than being safe
no-ops. -/
theorem C5_counterexample :
    getMemory disabledLTM 1 = .error .attributeError ∧
    updateMemory disabledLTM 1 "x" = .error .attributeError ∧
    getAllMemories disabledLTM 100 0 = .error .attributeError ∧
    getMemoryCount disabledLTM = .error .attributeError := by
  exact ⟨rfl, rfl, rfl, rfl⟩

/-- **C6** (confirmed): one `apply_decay` on an initialized store deletes
no record (the table keeps its length and ids positionally), multiplies
`decayScore` by exactly 0.95 for every record with `lastAccessedAt` older
than `now - decayDays` (in seconds) and leaves every other record
unchanged; and for a record qualifying at each of N sweeps (untouched by
search or update in between), the decayScore after the sweeps is `0.95^N`
times the original, which does not exceed the original when the original
is non-negative. -/
theorem C6_decay_sweep :
    (∀ (st : LTMState) (db : MemoryDB) (now d : ℚ),
      st.initialized = true → st.db = some db →
      ∃ db', applyDecay st now d = .ok { st with db := some db' } ∧
        db'.nextId = db.nextId ∧ db'.rows.length = db.rows.length ∧
        ∀ (j : Nat) (r : MemRecord), db.rows.get? j = some r →
          db'.rows.get? j = some
            (if r.lastAccessed < now - d * 24 * 3600 then
              { r with decayScore := r.decayScore * (19 / 20) } else r)) ∧
    (∀ (rows : List MemRecord) (params : List (ℚ × ℚ)) (j : Nat) (r : MemRecord),
      rows.get? j = some r →
      (∀ p ∈ params, r.lastAccessed < p.1 - p.2 * 24 * 3600) →
      (params.foldl (fun rs pr => applyDecayRows rs pr.1 pr.2) rows).get? j
        = some { r with decayScore := r.decayScore * (19 / 20) ^ params.length } ∧
      (0 ≤ r.decayScore →
        r.decayScore * (19 / 20) ^ params.length ≤ r.decayScore)) := by
  constructor
  · intro st db now d h1 h2
    refine ⟨⟨applyDecayRows db.rows now d, db.nextId⟩, ?_, rfl, ?_, ?_⟩
    · unfold applyDecay
      rw [h1, h2]
      simp
    · unfold applyDecayRows
      exact List.length_map _ _
    · intro j r hj
      unfold applyDecayRows
      rw [List.get?_map, hj]
      rfl
  · intro rows params
    induction params generalizing rows with
    | nil =>
      intro j r hj _
      refine ⟨by simpa using hj, fun _ => by simp⟩
    | cons p ps ih =>
      intro j r hj hq
      have hstep : (applyDecayRows rows p.1 p.2).get? j
          = some { r with decayScore := r.decayScore * (19 / 20) } := by
        unfold applyDecayRows
        rw [List.get?_map, hj]
        show some (decayStep p.1 p.2 r) = _
        unfold decayStep
        rw [if_pos (hq p (List.mem_cons_self p ps))]
      have hq' : ∀ q ∈ ps, ({ r with decayScore := r.decayScore * (19 / 20) }
          : MemRecord).lastAccessed < q.1 - q.2 * 24 * 3600 :=
        fun q hqq => hq q (List.mem_cons_of_mem p hqq)
      obtain ⟨hget, _⟩ := ih (applyDecayRows rows p.1 p.2) j _ hstep hq'
      constructor
      · have harith : (r.decayScore * (19 / 20)) * (19 / 20) ^ ps.length
            = r.decayScore * (19 / 20) ^ (p :: ps).length := by
          rw [List.length_cons, pow_succ']
          ring
        rw [List.foldl_cons, hget, harith]
      · intro h0
        calc r.decayScore * (19 / 20) ^ (p :: ps).length
            ≤ r.decayScore * 1 := by
              apply mul_le_mul_of_nonneg_left _ h0
              apply pow_le_one₀ (by norm_num) (by norm_num)
          _ = r.decayScore := mul_one _

/-- **C6** witness, via `C6_decay_sweep`: a record last accessed at time 0
qualifies at a sweep with `now = 10^7`, `decay_days = 30`; one sweep yields
decayScore `0.95`, and two further qualifying sweeps yield `0.95^2` of
that record's original score; a fresh record (lastAccessed = now) is left
unchanged. -/
theorem C6_witness :
    (∃ db', applyDecay
        ⟨true, some ⟨[⟨1, "s", "old", 1 / 2, 0, 0, 0, 1, []⟩,
                      ⟨2, "s", "new", 1 / 2, 10000000, 10000000, 0, 1, []⟩], 3⟩, []⟩
        10000000 30 = .ok { (⟨true, some ⟨[⟨1, "s", "old", 1 / 2, 0, 0, 0, 1, []⟩,
                      ⟨2, "s", "new", 1 / 2, 10000000, 10000000, 0, 1, []⟩], 3⟩, []⟩ : LTMState)
          with db := some db' } ∧
      db'.rows.get? 0 = some ⟨1, "s", "old", 1 / 2, 0, 0, 0, 19 / 20, []⟩ ∧
      db'.rows.get? 1 = some ⟨2, "s", "new", 1 / 2, 10000000, 10000000, 0, 1, []⟩) ∧
    (([(10000000, 30), (20000000, 30)] : List (ℚ × ℚ)).foldl
        (fun rs pr => applyDecayRows rs pr.1 pr.2)
        [⟨1, "s", "old", 1 / 2, 0, 0, 0, 1, []⟩]).get? 0
      = some ⟨1, "s", "old", 1 / 2, 0, 0, 0, 1 * (19 / 20) ^ 2, []⟩ := by
  constructor
  · obtain ⟨db', heq, hnext, hlen, hrow⟩ :=
      C6_decay_sweep.1 ⟨true, some ⟨[⟨1, "s", "old", 1 / 2, 0, 0, 0, 1, []⟩,
        ⟨2, "s", "new", 1 / 2, 10000000, 10000000, 0, 1, []⟩], 3⟩, []⟩
        ⟨[⟨1, "s", "old", 1 / 2, 0, 0, 0, 1, []⟩,
          ⟨2, "s", "new", 1 / 2, 10000000, 10000000, 0, 1, []⟩], 3⟩ 10000000 30 rfl rfl
    refine ⟨db', heq, ?_, ?_⟩
    · rw [hrow 0 _ rfl]
      norm_num
    · rw [hrow 1 _ rfl]
      norm_num
  · obtain ⟨hget, _⟩ := C6_decay_sweep.2 [⟨1, "s", "old", 1 / 2, 0, 0, 0, 1, []⟩]
      [(10000000, 30), (20000000, 30)] 0 ⟨1, "s", "old", 1 / 2, 0, 0, 0, 1, []⟩ rfl
      (by intro p hp; fin_cases hp <;> norm_num)
    exact hget

/-- `find?` over a dict rewritten by assignment to key `k` finds `(k, v)`,
provided some entry already had key `k`. -/
theorem find?_map_assoc {α : Type} (m : List (String × α)) (k : String) (v : α)
    (h : m.any (fun p => p.1 == k) = true) :
    (m.map (fun p => if p.1 == k then (k, v) else p)).find? (fun q => q.1 == k)
      = some (k, v) := by
  induction m with
  | nil => simp at h
  | cons p ps ih =>
    rw [List.map_cons]
    by_cases hp : (p.1 == k) = true
    · rw [if_pos hp, List.find?_cons_of_pos _ (by simp)]
    · rw [if_neg hp, List.find?_cons_of_neg _ (by simpa using hp)]
      apply ih
      rcases List.any_eq_true.mp h with ⟨x, hx, hxk⟩
      rcases List.mem_cons.mp hx with hEq | hx'
      · exact absurd (hEq ▸ hxk) hp
      · exact List.any_eq_true.mpr ⟨x, hx', hxk⟩

/-- Looking up the key just assigned by `assocSet` yields the new value. -/
theorem alookup_assocSet_self {α : Type} (m : List (String × α)) (k : String) (v : α) :
    alookup (assocSet m k v) k = some v := by
  unfold assocSet
  by_cases h : m.any (fun p => p.1 == k) = true
  · rw [if_pos h]
    unfold alookup
    rw [find?_map_assoc m k v h]
    rfl
  · rw [if_neg h]
    unfold alookup
    rw [List.find?_append]
    have hnone : m.find? (fun q => q.1 == k) = none :=
      List.find?_eq_none.mpr (fun x hx hpx => h (List.any_eq_true.mpr ⟨x, hx, hpx⟩))
    rw [hnone, List.find?_cons_of_pos _ (by simp)]
    rfl

theorem drop_tail_fifty (z : List CacheMsg) :
    (z.drop (z.length - 50)).drop ((z.drop (z.length - 50)).length - 50)
      = z.drop (z.length - 50) := by
  rw [List.length_drop]
  rw [show z.length - (z.length - 50) - 50 = 0 from by omega, List.drop_zero]

theorem clip50_eq_drop (l : List CacheMsg) : clip50 l = l.drop (l.length - 50) := by
  unfold clip50
  by_cases h : 50 < l.length
  · rw [if_pos h]
  · rw [if_neg h, Nat.sub_eq_zero_of_le (by omega), List.drop_zero]

/-- Clipping an already-clipped prefix commutes with appending: iterated
per-append clipping equals one clip of the whole concatenation. -/
theorem clip50_clip50_append (X Y : List CacheMsg) :
    clip50 (clip50 X ++ Y) = clip50 (X ++ Y) := by
  simp only [clip50_eq_drop]
  rw [← List.drop_append_of_le_length (by omega : X.length - 50 ≤ X.length),
    List.drop_drop]
  congr 1
  simp only [List.length_drop, List.length_append]
  omega

theorem length_appendedLog (sid : String) (items : List (String × String × ℚ)) :
    ∀ n, (appendedLog sid n items).length = items.length := by
  induction items with
  | nil => intro n; rfl
  | cons i rest ih => intro n; simp [appendedLog, ih]

theorem length_appendedCache (items : List (String × String × ℚ)) :
    ∀ n, (appendedCache n items).length = items.length := by
  induction items with
  | nil => intro n; rfl
  | cons i rest ih => intro n; simp [appendedCache, ih]

/-- The cumulative effect of a run of `add_message` calls: the durable log
grows by one row per call, the id counter advances by the number of calls,
and the session's cache is the clipped concatenation of its previous
content with the new entries. -/
theorem runAppends_spec (sid : String) :
    ∀ (items : List (String × String × ℚ)) (st : STMState),
      (runAppends st sid items).log = st.log ++ appendedLog sid st.nextId items ∧
      (runAppends st sid items).nextId = st.nextId + items.length ∧
      (items ≠ [] → alookup (runAppends st sid items).cache sid
        = some (clip50 (((alookup st.cache sid).getD [])
            ++ appendedCache st.nextId items))) := by
  intro items
  induction items with
  | nil =>
    intro st
    exact ⟨by simp [runAppends, appendedLog], by simp [runAppends],
      fun h => absurd rfl h⟩
  | cons i rest ih =>
    intro st
    have hcache₁ : alookup (addMessage st sid i.1 i.2.1 i.2.2).2.cache sid
        = some (clip50 (((alookup st.cache sid).getD [])
            ++ [⟨st.nextId, i.1, i.2.1, i.2.2⟩])) := by
      show alookup (assocSet st.cache sid _) sid = _
      rw [alookup_assocSet_self]
    obtain ⟨ihlog, ihnext, ihcache⟩ := ih (addMessage st sid i.1 i.2.1 i.2.2).2
    refine ⟨?_, ?_, ?_⟩
    · show (runAppends (addMessage st sid i.1 i.2.1 i.2.2).2 sid rest).log = _
      rw [ihlog]
      show (st.log ++ [⟨st.nextId, sid, i.1, i.2.1, i.2.2⟩])
          ++ appendedLog sid (st.nextId + 1) rest = _
      rw [List.append_assoc]
      rfl
    · show (runAppends (addMessage st sid i.1 i.2.1 i.2.2).2 sid rest).nextId = _
      rw [ihnext]
      show st.nextId + 1 + rest.length = st.nextId + (rest.length + 1)
      omega
    · intro _
      by_cases hrest : rest = []
      · subst hrest
        show alookup (addMessage st sid i.1 i.2.1 i.2.2).2.cache sid = _
        rw [hcache₁]
        rfl
      · have h2 := ihcache hrest
        rw [hcache₁] at h2
        show alookup (runAppends (addMessage st sid i.1 i.2.1 i.2.2).2 sid rest).cache sid = _
        rw [h2, Option.getD_some, clip50_clip50_append, List.append_assoc]
        rfl

/-- **C7** (confirmed): for a session receiving `M > 50` appends, the
in-memory window is bounded: `get_session_messages(sid, 50)` returns
exactly the last 50 appended messages in chronological (append) order,
while the durable log grows by all `M` rows (eviction never touches it). -/
theorem C7_bounded_window (st : STMState) (sid : String)
    (items : List (String × String × ℚ)) (hM : 50 < items.length) :
    (getSessionMessages (runAppends st sid items) sid 50).1
      = (appendedCache st.nextId items).drop (items.length - 50) ∧
    (runAppends st sid items).log = st.log ++ appendedLog sid st.nextId items ∧
    (appendedLog sid st.nextId items).length = items.length := by
  obtain ⟨hlog, hnext, hcache⟩ := runAppends_spec sid items st
  have hitems : items ≠ [] := by
    intro h
    rw [h] at hM
    simp at hM
  have hc := hcache hitems
  refine ⟨?_, hlog, length_appendedLog sid items st.nextId⟩
  unfold getSessionMessages
  rw [hc]
  show pyLastSlice (clip50 (((alookup st.cache sid).getD [])
      ++ appendedCache st.nextId items)) 50 = _
  rw [clip50_eq_drop]
  unfold pyLastSlice
  rw [if_neg (by omega)]
  rw [drop_tail_fifty]
  rw [show (((alookup st.cache sid).getD []) ++ appendedCache st.nextId items).length - 50
      = ((alookup st.cache sid).getD []).length + (items.length - 50) from by
    rw [List.length_append, length_appendedCache]
    omega]
  exact List.drop_append _

/-- **C7** witness, via `C7_bounded_window`: 51 appends to a fresh manager;
the window is the last 50 entries (ids 2..52) and the log holds all 51
rows. -/
theorem C7_witness :
    50 < items51.length ∧
    ((getSessionMessages (runAppends freshSTM "S" items51) "S" 50).1
        = (appendedCache 1 items51).drop 1 ∧
      (runAppends freshSTM "S" items51).log = appendedLog "S" 1 items51 ∧
      (appendedLog "S" 1 items51).length = 51) ∧
    ((getSessionMessages (runAppends freshSTM "S" items51) "S" 50).1).length = 50 := by
  obtain ⟨h1, h2, h3⟩ := C7_bounded_window freshSTM "S" items51 (by decide)
  refine ⟨by decide, ⟨h1, by simpa using h2, h3⟩, ?_⟩
  rw [h1]
  decide

/-- `summarize_session` never touches the per-session turn counter. -/
theorem summarize_counter (ps : ProcState) (sid : String) (prov : Bool) (now : ℚ) :
    (summarizeSession ps sid prov now).2.counter = ps.counter := by
  unfold summarizeSession
  dsimp only
  split
  · rfl
  · split
    · rfl
    · split <;> rfl

/-- One valid `handle_message` call: it triggers exactly when the
incremented counter reaches the threshold, after which the counter is 0,
and otherwise just advances the counter. -/
theorem handleMessage_step (ps : ProcState) (sid m : String) (T : Nat) (prov : Bool)
    (now : ℚ) (c : Nat) (hsid : sid ≠ "") (hm : m ≠ "")
    (hc : (alookup ps.counter sid).getD 0 = c) :
    (handleMessage ps sid m T prov now).1 = decide (T ≤ c + 1) ∧
    (alookup (handleMessage ps sid m T prov now).2.counter sid).getD 0
      = (if T ≤ c + 1 then 0 else c + 1) := by
  unfold handleMessage
  rw [if_neg hsid, if_neg hm]
  dsimp only
  rw [hc]
  by_cases htrig : T ≤ c + 1
  · rw [if_pos htrig, if_pos htrig]
    refine ⟨by simp [htrig], ?_⟩
    show (alookup (assocSet _ sid 0) sid).getD 0 = 0
    rw [alookup_assocSet_self]
    rfl
  · rw [if_neg htrig, if_neg htrig]
    refine ⟨by simp [htrig], ?_⟩
    show (alookup (assocSet ps.counter sid (c + 1)) sid).getD 0 = c + 1
    rw [alookup_assocSet_self]
    rfl

/-- The counter/trigger invariant of a run of `handle_message` calls: with
start counter `c < T`, the i-th call (0-based) triggers summarization
exactly when `(c + i + 1) % T = 0`, and the counter afterwards is
`(c + number of calls) % T`. -/
theorem runProc_spec (sid : String) (hsid : sid ≠ "") (T : Nat) (prov : Bool) (now : ℚ) :
    ∀ (msgs : List String) (ps : ProcState) (c : Nat),
      (∀ m ∈ msgs, m ≠ "") → (alookup ps.counter sid).getD 0 = c → c < T →
      (runProc ps sid msgs T prov now).1
        = (List.range msgs.length).map (fun i => decide ((c + i + 1) % T = 0)) ∧
      (alookup (runProc ps sid msgs T prov now).2.counter sid).getD 0
        = (c + msgs.length) % T := by
  intro msgs
  induction msgs with
  | nil =>
    intro ps c _ hc hlt
    refine ⟨by simp [runProc], ?_⟩
    show (alookup ps.counter sid).getD 0 = (c + 0) % T
    rw [hc, Nat.add_zero, Nat.mod_eq_of_lt hlt]
  | cons m rest ih =>
    intro ps c hne hc hlt
    have hm : m ≠ "" := hne m (List.mem_cons_self m rest)
    have hnerest : ∀ x ∈ rest, x ≠ "" := fun x hx => hne x (List.mem_cons_of_mem m hx)
    obtain ⟨hflag, hcnt⟩ := handleMessage_step ps sid m T prov now c hsid hm hc
    have hsplit : ∀ q : List Bool,
        (runProc ps sid (m :: rest) T prov now).1
          = (handleMessage ps sid m T prov now).1
            :: (runProc (handleMessage ps sid m T prov now).2 sid rest T prov now).1 :=
      fun _ => rfl
    by_cases htrig : T ≤ c + 1
    · have hceq : c + 1 = T := by omega
      rw [if_pos htrig] at hcnt
      obtain ⟨ihf, ihc⟩ :=
        ih (handleMessage ps sid m T prov now).2 0 hnerest hcnt (by omega)
      constructor
      · rw [hsplit [], hflag, ihf, List.length_cons, List.range_succ_eq_map,
          List.map_cons, List.map_map]
        have hhead : decide (T ≤ c + 1) = decide ((c + 0 + 1) % T = 0) := by
          rw [decide_eq_decide, Nat.add_zero, hceq, Nat.mod_self]
          simp
        have htail : (List.range rest.length).map (fun i => decide ((0 + i + 1) % T = 0))
            = (List.range rest.length).map
                ((fun i => decide ((c + i + 1) % T = 0)) ∘ Nat.succ) := by
          apply List.map_congr_left
          intro i _
          show decide ((0 + i + 1) % T = 0) = decide ((c + (i + 1) + 1) % T = 0)
          rw [decide_eq_decide,
            show c + (i + 1) + 1 = T + (i + 1) from by omega, Nat.add_mod_left,
            Nat.zero_add]
        rw [hhead, htail]
      · show (alookup (runProc (handleMessage ps sid m T prov now).2
            sid rest T prov now).2.counter sid).getD 0 = _
        rw [ihc, List.length_cons,
          show c + (rest.length + 1) = T + rest.length from by omega,
          Nat.add_mod_left, Nat.zero_add]
    · rw [if_neg htrig] at hcnt
      obtain ⟨ihf, ihc⟩ :=
        ih (handleMessage ps sid m T prov now).2 (c + 1) hnerest hcnt (by omega)
      constructor
      · rw [hsplit [], hflag, ihf, List.length_cons, List.range_succ_eq_map,
          List.map_cons, List.map_map]
        have hhead : decide (T ≤ c + 1) = decide ((c + 0 + 1) % T = 0) := by
          rw [decide_eq_decide, Nat.add_zero, Nat.mod_eq_of_lt (by omega)]
          constructor
          · intro h
            omega
          · intro h
            omega
        have htail : (List.range rest.length).map
              (fun i => decide ((c + 1 + i + 1) % T = 0))
            = (List.range rest.length).map
                ((fun i => decide ((c + i + 1) % T = 0)) ∘ Nat.succ) := by
          apply List.map_congr_left
          intro i _
          show decide ((c + 1 + i + 1) % T = 0) = decide ((c + (i + 1) + 1) % T = 0)
          rw [decide_eq_decide, show c + (i + 1) + 1 = c + 1 + i + 1 from by omega]
        rw [hhead, htail]
      · show (alookup (runProc (handleMessage ps sid m T prov now).2
            sid rest T prov now).2.counter sid).getD 0 = _
        rw [ihc, List.length_cons,
          show c + (rest.length + 1) = c + 1 + rest.length from by omega]

/-- **C8** (confirmed): with `summary_threshold = 20` and a fresh session
counter, a run of valid `handle_message` calls triggers summarization
exactly at the 20th call and at no other of the first 39 calls — whatever
the summarizer does — and the counter is 0 immediately after the 20th
call. -/
theorem C8_threshold_trigger (ps : ProcState) (sid : String) (msgs : List String)
    (prov : Bool) (now : ℚ)
    (hsid : sid ≠ "") (hne : ∀ m ∈ msgs, m ≠ "")
    (hfresh : (alookup ps.counter sid).getD 0 = 0)
    (hlen : msgs.length ≤ 39) :
    (runProc ps sid msgs 20 prov now).1
      = (List.range msgs.length).map (fun i => decide (i + 1 = 20)) ∧
    (20 ≤ msgs.length →
      (alookup (runProc ps sid (msgs.take 20) 20 prov now).2.counter sid).getD 0
        = 0) := by
  obtain ⟨hflags, _⟩ :=
    runProc_spec sid hsid 20 prov now msgs ps 0 hne hfresh (by omega)
  constructor
  · rw [hflags]
    apply List.map_congr_left
    intro i hi
    have hi' : i < msgs.length := List.mem_range.mp hi
    rw [decide_eq_decide]
    omega
  · intro h20
    obtain ⟨_, hcnt⟩ := runProc_spec sid hsid 20 prov now (msgs.take 20) ps 0
      (fun x hx => hne x (List.take_subset _ _ hx)) hfresh (by omega)
    rw [hcnt, List.length_take, show min 20 msgs.length = 20 from by omega]

/-- **C8** witness, via `C8_threshold_trigger`: 39 `handle_message` calls
with content `"hi"` on a fresh processor trigger exactly at call 20. -/
theorem C8_witness :
    (∀ m ∈ List.replicate 39 "hi", m ≠ "") ∧
    (alookup freshProc.counter "S").getD 0 = 0 ∧
    (runProc freshProc "S" (List.replicate 39 "hi") 20 true 7).1
      = (List.range 39).map (fun i => decide (i + 1 = 20)) ∧
    (alookup (runProc freshProc "S" ((List.replicate 39 "hi").take 20)
        20 true 7).2.counter "S").getD 0 = 0 := by
  obtain ⟨h1, h2⟩ := C8_threshold_trigger freshProc "S" (List.replicate 39 "hi")
    true 7 (by decide) (by decide) rfl (by decide)
  exact ⟨by decide, rfl, h1, h2 (by decide)⟩

/-- **C9** (code bug): `rebuild_index` delegates to
`SimpleVectorStore.rebuild`, whose body is `pass` — it changes nothing.
It is therefore trivially idempotent, but it does *not* reconstruct the
auxiliary search structure from the canonical record set: on a store
re-initialized over an existing database (one durable row, empty index),
the index stays empty instead of reflecting the row — contradicting both
the claim and the method's own docstring ("重建向量索引"). -/
theorem C9_rebuild_noop :
    (∀ st : LTMState, rebuildIndex st = st) ∧
    (∀ st : LTMState, rebuildIndex (rebuildIndex st) = rebuildIndex st) ∧
    rebuildIndex staleState = staleState ∧
    staleState.db.map (fun db => db.rows.map (fun r => (r.id, r.content)))
      = some [(1, "dogs are loyal")] ∧
    (rebuildIndex staleState).vstore = [] := by
  exact ⟨fun _ => rfl, fun _ => rfl, rfl, rfl, rfl⟩

/-- **C10** (confirmed): `_build_memory_context` omits the short-term
section entirely when the session context is empty and the long-term
section entirely when no query is extractable or the search returns no
hits; with both sections absent it returns `""`, and `inject_memory` leaves
the request untouched whenever the context is `""`. -/
theorem C10_context_omission (stm : STMState) (ltm : LTMState) (sid : String)
    (req : ProviderReq) (topK : Nat) (now : ℚ) :
    ((getSessionContext stm sid).1 = [] → extractQuery req = "" →
      buildMemoryContext stm ltm sid req topK now
        = .ok ("", (getSessionContext stm sid).2, ltm)) ∧
    (∀ ltm', (getSessionContext stm sid).1 = [] → extractQuery req ≠ "" →
      searchMem ltm (extractQuery req) topK now = .ok ([], ltm') →
      buildMemoryContext stm ltm sid req topK now
        = .ok ("", (getSessionContext stm sid).2, ltm')) ∧
    (∀ hits ltm', (getSessionContext stm sid).1 = [] → extractQuery req ≠ "" →
      searchMem ltm (extractQuery req) topK now = .ok (hits, ltm') → hits ≠ [] →
      buildMemoryContext stm ltm sid req topK now
        = .ok ("=== 长期记忆 (相关记忆) ===\n" ++ formatLongTerm hits,
            (getSessionContext stm sid).2, ltm')) ∧
    ((getSessionContext stm sid).1 ≠ [] → extractQuery req = "" →
      buildMemoryContext stm ltm sid req topK now
        = .ok ("=== 短期记忆 (最近对话) ===\n"
              ++ formatShortTerm (getSessionContext stm sid).1,
            (getSessionContext stm sid).2, ltm)) ∧
    (∀ ltm', (getSessionContext stm sid).1 ≠ [] → extractQuery req ≠ "" →
      searchMem ltm (extractQuery req) topK now = .ok ([], ltm') →
      buildMemoryContext stm ltm sid req topK now
        = .ok ("=== 短期记忆 (最近对话) ===\n"
              ++ formatShortTerm (getSessionContext stm sid).1,
            (getSessionContext stm sid).2, ltm')) ∧
    (sid ≠ "" → ∀ s' l',
      buildMemoryContext stm ltm sid req topK now = .ok ("", s', l') →
      injectMemory stm ltm sid req topK now = .ok (req, s', l')) := by
  refine ⟨?_, ?_, ?_, ?_, ?_, ?_⟩
  · intro h1 h2
    unfold buildMemoryContext
    dsimp only
    rw [h1, if_pos h2]
    rfl
  · intro ltm' h1 h2 hs
    unfold buildMemoryContext
    dsimp only
    rw [h1, if_neg h2, hs]
    rfl
  · intro hits ltm' h1 h2 hs hhits
    unfold buildMemoryContext
    dsimp only
    rw [h1, if_neg h2, hs]
    dsimp only
    have : hits.isEmpty = false := by
      cases hits with
      | nil => exact absurd rfl hhits
      | cons a l => rfl
    rw [this]
    rfl
  · intro h1 h2
    unfold buildMemoryContext
    dsimp only
    rw [if_pos h2]
    have : (getSessionContext stm sid).1.isEmpty = false := by
      cases hh : (getSessionContext stm sid).1 with
      | nil => exact absurd hh h1
      | cons a l => rfl
    rw [this]
    rfl
  · intro ltm' h1 h2 hs
    unfold buildMemoryContext
    dsimp only
    rw [if_neg h2, hs]
    dsimp only
    have : (getSessionContext stm sid).1.isEmpty = false := by
      cases hh : (getSessionContext stm sid).1 with
      | nil => exact absurd hh h1
      | cons a l => rfl
    rw [this]
    rfl
  · intro hsid s' l' hb
    unfold injectMemory
    rw [if_neg hsid, hb]
    rfl

/-- **C10** witness, via `C10_context_omission`: a session with no
short-term history and a request with no extractable query yield the empty
context, and the request is injected with nothing (left unchanged). -/
theorem C10_witness :
    (getSessionContext freshSTM "S").1 = [] ∧
    extractQuery ⟨"sys", []⟩ = "" ∧
    buildMemoryContext freshSTM freshLTM "S" ⟨"sys", []⟩ 5 9
      = .ok ("", (getSessionContext freshSTM "S").2, freshLTM) ∧
    injectMemory freshSTM freshLTM "S" ⟨"sys", []⟩ 5 9
      = .ok (⟨"sys", []⟩, (getSessionContext freshSTM "S").2, freshLTM) := by
  obtain ⟨c1, _, _, _, _, c6⟩ :=
    C10_context_omission freshSTM freshLTM "S" ⟨"sys", []⟩ 5 9
  have hb := c1 rfl rfl
  exact ⟨rfl, rfl, hb, c6 (by decide) _ _ hb⟩

end HybridMemory
